import Mathlib

/-!
Verification of the binomial lattice option pricer
(`binomial_option_pricer` in `Binomial Lattice Options Pricer.py`).

The pricer is shallowly embedded over the reals: `np.exp` becomes
`Real.exp`, `np.sqrt` becomes `Real.sqrt`, the two `(N+1) × (N+1)` numpy
arrays become functions `ℕ → ℕ → ℝ` that are `0` at every index the
Python loops never write (numpy arrays are zero-initialised), and the two
ways the Python function can terminate — raising an exception or
returning a float — become `Except PyError ℝ`.
-/

namespace MotleyPricer

noncomputable section

/-- Exceptions the Python function can raise: `ZeroDivisionError`
(from `delta_t = T / N` when `N = 0`) and `ValueError` with a message
(from the `option_type` check). -/
inductive PyError where
  | zeroDivisionError : PyError
  | valueError : String → PyError
deriving DecidableEq

/-- Call payoff `np.maximum(0, x - K)` (line 38 of the source). -/
def callPayoff (K x : ℝ) : ℝ := max 0 (x - K)

/-- Put payoff `np.maximum(0, K - x)` (line 41 of the source). -/
def putPayoff (K x : ℝ) : ℝ := max 0 (K - x)

/-- Payoff selected by the option type (`true` = call, `false` = put). -/
def payoff (isCall : Bool) (K x : ℝ) : ℝ :=
  if isCall then callPayoff K x else putPayoff K x

/-- The `stock_prices` array after the loop on lines 25-31 of the source:
`stock_prices[0, 0] = S`, `stock_prices[i, 0] = stock_prices[i-1, 0] * u`,
`stock_prices[i, j] = stock_prices[i-1, j-1] * d` for `1 ≤ j ≤ i`, and
`0` (the numpy zero initialisation) at every index never written. -/
def stock_prices (S u d : ℝ) : ℕ → ℕ → ℝ
  | 0, 0 => S
  | 0, _ + 1 => 0
  | i + 1, 0 => stock_prices S u d i 0 * u
  | i + 1, j + 1 => if j + 1 ≤ i + 1 then stock_prices S u d i j * d else 0

/-- The backward induction on lines 46-48 of the source, indexed by the
number `k` of remaining backward steps: `backward q R term k j` is the
option value at node `(N - k, j)` when `term` is the terminal layer. -/
def backward (q R : ℝ) (term : ℕ → ℝ) : ℕ → ℕ → ℝ
  | 0 => term
  | k + 1 => fun j =>
      (q * backward q R term k j + (1 - q) * backward q R term k (j + 1)) / R

/-- The `option_values` array after lines 34-48 of the source: entry
`(i, j)` with `j ≤ i ≤ N` holds the backward-induction value over the
terminal payoff layer, every other entry keeps its numpy zero. -/
def option_values (S K u d q R : ℝ) (N : ℕ) (isCall : Bool) (i j : ℕ) : ℝ :=
  if j ≤ i ∧ i ≤ N then
    backward q R (fun m => payoff isCall K (stock_prices S u d N m)) (N - i) j
  else 0

/-- Up factor `u = np.exp(sigma * np.sqrt(delta_t))` (line 18). -/
def u_factor (sigma T : ℝ) (N : ℕ) : ℝ := Real.exp (sigma * Real.sqrt (T / N))

/-- Down factor `d = np.exp(-sigma * np.sqrt(delta_t))` (line 19). -/
def d_factor (sigma T : ℝ) (N : ℕ) : ℝ := Real.exp (-(sigma * Real.sqrt (T / N)))

/-- Per-step discount factor `R = np.exp(r * delta_t)` (line 22). -/
def R_factor (r T : ℝ) (N : ℕ) : ℝ := Real.exp (r * (T / N))

/-- Risk-neutral probability `q = (R - d) / (u - d)` (line 23). -/
def q_prob (sigma T r : ℝ) (N : ℕ) : ℝ :=
  (R_factor r T N - d_factor sigma T N) / (u_factor sigma T N - d_factor sigma T N)

/-- `binomial_option_pricer(S, K, T, r, sigma, N, option_type)`
(lines 12-54 of the source).  `delta_t = T / N` raises
`ZeroDivisionError` in Python when `N = 0`; otherwise the function
builds both grids and either raises
`ValueError("Option type must be 'call' or 'put'")` when `option_type`
is neither `"call"` nor `"put"`, or returns `option_values[0, 0]`.
(The Python code performs the `option_type` check between building the
stock grid and running the backward pass; since grid construction is
pure and total for `N ≥ 1`, the observable behaviour — which exception
is raised, or which value is returned — is as modelled here.
The call to `visualize_binomial_tree` only plots and is not modelled.) -/
def binomial_option_pricer (S K T r sigma : ℝ) (N : ℕ) (option_type : String) :
    Except PyError ℝ :=
  if N = 0 then .error .zeroDivisionError
  else if option_type = "call" then
    .ok (option_values S K (u_factor sigma T N) (d_factor sigma T N)
      (q_prob sigma T r N) (R_factor r T N) N true 0 0)
  else if option_type = "put" then
    .ok (option_values S K (u_factor sigma T N) (d_factor sigma T N)
      (q_prob sigma T r N) (R_factor r T N) N false 0 0)
  else .error (.valueError "Option type must be 'call' or 'put'")

/-- Modelled from the spec: the source implements only the European
continuation rule, while the spec's `discount_backward` additionally
describes an American mode in which "the node value is
`max(C, intrinsic(i,j))` where `intrinsic` reuses the same payoff rule
as the terminal layer applied to the node's underlying price".
`intrinsic k j` is the intrinsic value at node `(N - k, j)`. -/
def backward_american (q R : ℝ) (intrinsic : ℕ → ℕ → ℝ) (term : ℕ → ℝ) :
    ℕ → ℕ → ℝ
  | 0 => term
  | k + 1 => fun j =>
      max ((q * backward_american q R intrinsic term k j
            + (1 - q) * backward_american q R intrinsic term k (j + 1)) / R)
        (intrinsic (k + 1) j)

/-- Modelled from the spec: root value of the American-exercise backward
pass over the same terminal payoffs, with the intrinsic value at node
`(i, j)` given by the payoff rule applied to `stock_prices[i, j]`. -/
def american_root (S K u d q R : ℝ) (N : ℕ) (isCall : Bool) : ℝ :=
  backward_american q R
    (fun k j => payoff isCall K (stock_prices S u d (N - k) j))
    (fun m => payoff isCall K (stock_prices S u d N m)) N 0

/-! ### Helper lemmas -/

/-- Closed form of the stock-price grid: the incremental recurrence
produces `S * u^(i-j) * d^j` at every written entry. -/
lemma stock_prices_closed (S u d : ℝ) :
    ∀ i j, j ≤ i → stock_prices S u d i j = S * u ^ (i - j) * d ^ j := by
  intro i
  induction i with
  | zero =>
    intro j hj
    interval_cases j
    simp [stock_prices]
  | succ i ih =>
    intro j hj
    match j with
    | 0 =>
      rw [stock_prices, ih 0 (Nat.zero_le i)]
      simp [pow_succ]
      ring
    | j + 1 =>
      rw [stock_prices, if_pos hj, ih j (Nat.succ_le_succ_iff.mp hj)]
      have : i + 1 - (j + 1) = i - j := by omega
      rw [this, pow_succ]
      ring

lemma backward_congr {q R : ℝ} {f g : ℕ → ℝ} (h : ∀ m, f m = g m) :
    ∀ k j, backward q R f k j = backward q R g k j := by
  intro k
  induction k with
  | zero => intro j; simpa [backward] using h j
  | succ k ih => intro j; simp [backward, ih]

lemma backward_nonneg {q R : ℝ} {f : ℕ → ℝ} (hq0 : 0 ≤ q) (hq1 : q ≤ 1)
    (hR : 0 < R) (hf : ∀ m, 0 ≤ f m) :
    ∀ k j, 0 ≤ backward q R f k j := by
  intro k
  induction k with
  | zero => intro j; exact hf j
  | succ k ih =>
    intro j
    have h1 := ih j
    have h2 := ih (j + 1)
    rw [backward]
    have hnum : 0 ≤ q * backward q R f k j + (1 - q) * backward q R f k (j + 1) := by
      nlinarith
    exact div_nonneg hnum hR.le

lemma backward_mono {q R : ℝ} {f g : ℕ → ℝ} (hq0 : 0 ≤ q) (hq1 : q ≤ 1)
    (hR : 0 < R) (hfg : ∀ m, f m ≤ g m) :
    ∀ k j, backward q R f k j ≤ backward q R g k j := by
  intro k
  induction k with
  | zero => intro j; exact hfg j
  | succ k ih =>
    intro j
    rw [backward, backward]
    have h1 := ih j
    have h2 := ih (j + 1)
    have hnum : q * backward q R f k j + (1 - q) * backward q R f k (j + 1)
        ≤ q * backward q R g k j + (1 - q) * backward q R g k (j + 1) := by
      nlinarith
    exact div_le_div_of_nonneg_right hnum hR.le

/-- Strictness propagates up the all-up chain (the `j = 0` column of the
backward recursion) as long as the up-probability `q` is positive. -/
lemma backward_strict_left {q R : ℝ} {f g : ℕ → ℝ} (hq0 : 0 < q) (hq1 : q ≤ 1)
    (hR : 0 < R) (hfg : ∀ m, f m ≤ g m) (h0 : f 0 < g 0) :
    ∀ k, backward q R f k 0 < backward q R g k 0 := by
  intro k
  induction k with
  | zero => exact h0
  | succ k ih =>
    rw [backward, backward]
    have h2 := backward_mono hq0.le hq1 hR hfg k 1
    have hnum : q * backward q R f k 0 + (1 - q) * backward q R f k 1
        < q * backward q R g k 0 + (1 - q) * backward q R g k 1 := by
      nlinarith
    exact div_lt_div_of_pos_right hnum hR

/-- Strictness propagates up the all-down chain (the diagonal `j = N - k`)
as long as the down-probability `1 - q` is positive. -/
lemma backward_strict_right {q R : ℝ} {f g : ℕ → ℝ} {N : ℕ} (hq0 : 0 ≤ q)
    (hq1 : q < 1) (hR : 0 < R) (hfg : ∀ m, f m ≤ g m) (hN : f N < g N) :
    ∀ k j, j + k = N → backward q R f k j < backward q R g k j := by
  intro k
  induction k with
  | zero =>
    intro j hj
    have : j = N := by omega
    subst this
    exact hN
  | succ k ih =>
    intro j hj
    rw [backward, backward]
    have h1 := backward_mono hq0 hq1.le hR hfg k j
    have h2 := ih (j + 1) (by omega)
    have hnum : q * backward q R f k j + (1 - q) * backward q R f k (j + 1)
        < q * backward q R g k j + (1 - q) * backward q R g k (j + 1) := by
      nlinarith
    exact div_lt_div_of_pos_right hnum hR

/-- The European backward value is dominated by the American one node by
node: the American rule only ever takes a `max` with the continuation. -/
lemma backward_le_american {q R : ℝ} {intr : ℕ → ℕ → ℝ} {term : ℕ → ℝ}
    (hq0 : 0 ≤ q) (hq1 : q ≤ 1) (hR : 0 < R) :
    ∀ k j, backward q R term k j ≤ backward_american q R intr term k j := by
  intro k
  induction k with
  | zero => intro j; exact le_refl _
  | succ k ih =>
    intro j
    rw [backward, backward_american]
    refine le_trans ?_ (le_max_left _ _)
    have h1 := ih j
    have h2 := ih (j + 1)
    have hnum : q * backward q R term k j + (1 - q) * backward q R term k (j + 1)
        ≤ q * backward_american q R intr term k j
          + (1 - q) * backward_american q R intr term k (j + 1) := by
      nlinarith
    exact div_le_div_of_nonneg_right hnum hR.le

lemma backward_sub (q R : ℝ) (f g : ℕ → ℝ) :
    ∀ k j, backward q R (fun m => f m - g m) k j
      = backward q R f k j - backward q R g k j := by
  intro k
  induction k with
  | zero => intro j; rfl
  | succ k ih =>
    intro j
    simp only [backward]
    rw [ih j, ih (j + 1)]
    ring

/-- Difference of call and put payoffs is the forward payoff `x - K`. -/
lemma callPayoff_sub_putPayoff (K x : ℝ) :
    callPayoff K x - putPayoff K x = x - K := by
  rcases le_total x K with h | h
  · rw [callPayoff, putPayoff, max_eq_left (by linarith), max_eq_right (by linarith)]
    ring
  · rw [callPayoff, putPayoff, max_eq_right (by linarith), max_eq_left (by linarith)]
    ring

/-- Telescoping of the backward recursion over the forward payoff
`stock - K`: each step walks one layer up the stock grid and discounts
`K` once more, provided `q * u + (1 - q) * d = R`. -/
lemma backward_forward (S K u d q R : ℝ) (N : ℕ) (hR : R ≠ 0)
    (hqud : q * u + (1 - q) * d = R) :
    ∀ k j, j + k ≤ N →
      backward q R (fun m => stock_prices S u d N m - K) k j
        = S * u ^ (N - j - k) * d ^ j - K / R ^ k := by
  intro k
  induction k with
  | zero =>
    intro j hj
    rw [backward, stock_prices_closed S u d N j (by omega)]
    simp
  | succ k ih =>
    intro j hj
    simp only [backward]
    rw [ih j (by omega), ih (j + 1) (by omega)]
    have h1 : N - j - k = (N - (j + 1) - k) + 1 := by omega
    have h2 : N - j - (k + 1) = N - (j + 1) - k := by omega
    rw [h1, h2]
    have key : q * (S * u ^ (N - (j + 1) - k + 1) * d ^ j - K / R ^ k)
          + (1 - q) * (S * u ^ (N - (j + 1) - k) * d ^ (j + 1) - K / R ^ k)
        = R * (S * u ^ (N - (j + 1) - k) * d ^ j) - K / R ^ k := by
      rw [pow_succ, pow_succ]
      linear_combination (S * u ^ (N - (j + 1) - k) * d ^ j) * hqud
    rw [key, sub_div, mul_div_cancel_left₀ _ hR, div_div, ← pow_succ]

lemma option_values_eq (S K u d q R : ℝ) (N : ℕ) (isCall : Bool) (i j : ℕ)
    (hj : j ≤ i) (hi : i ≤ N) :
    option_values S K u d q R N isCall i j
      = backward q R (fun m => payoff isCall K (stock_prices S u d N m)) (N - i) j := by
  unfold option_values
  rw [if_pos ⟨hj, hi⟩]

lemma stock_prices_S_zero (u d : ℝ) : ∀ i j, stock_prices 0 u d i j = 0 := by
  intro i
  induction i with
  | zero =>
    intro j
    match j with
    | 0 => rfl
    | _ + 1 => rfl
  | succ i ih =>
    intro j
    match j with
    | 0 => rw [stock_prices, ih 0, zero_mul]
    | j + 1 =>
      rw [stock_prices]
      split
      · rw [ih j, zero_mul]
      · rfl

lemma backward_of_zero_term (q R : ℝ) (term : ℕ → ℝ) (h : ∀ m, term m = 0) :
    ∀ k j, backward q R term k j = 0 := by
  intro k
  induction k with
  | zero => intro j; exact h j
  | succ k ih =>
    intro j
    simp only [backward]
    rw [ih j, ih (j + 1)]
    ring

/-! ### Derived facts about the per-step factors -/

lemma R_factor_pos (r T : ℝ) (N : ℕ) : 0 < R_factor r T N := Real.exp_pos _

lemma d_factor_pos (sigma T : ℝ) (N : ℕ) : 0 < d_factor sigma T N := Real.exp_pos _

lemma sigma_sqrt_pos {sigma T : ℝ} {N : ℕ} (hsig : 0 < sigma) (hT : 0 < T)
    (hN : 1 ≤ N) : 0 < sigma * Real.sqrt (T / N) := by
  have hcast : (0:ℝ) < N := by exact_mod_cast Nat.lt_of_lt_of_le Nat.zero_lt_one hN
  exact mul_pos hsig (Real.sqrt_pos.mpr (div_pos hT hcast))

lemma d_factor_lt_one {sigma T : ℝ} {N : ℕ} (hsig : 0 < sigma) (hT : 0 < T)
    (hN : 1 ≤ N) : d_factor sigma T N < 1 := by
  rw [d_factor, ← Real.exp_zero]
  exact Real.exp_lt_exp.mpr (by linarith [sigma_sqrt_pos hsig hT hN])

lemma one_lt_u_factor {sigma T : ℝ} {N : ℕ} (hsig : 0 < sigma) (hT : 0 < T)
    (hN : 1 ≤ N) : 1 < u_factor sigma T N := by
  rw [u_factor, ← Real.exp_zero]
  exact Real.exp_lt_exp.mpr (sigma_sqrt_pos hsig hT hN)

lemma d_factor_lt_u_factor {sigma T : ℝ} {N : ℕ} (hsig : 0 < sigma) (hT : 0 < T)
    (hN : 1 ≤ N) : d_factor sigma T N < u_factor sigma T N :=
  lt_trans (d_factor_lt_one hsig hT hN) (one_lt_u_factor hsig hT hN)

/-- The defining property of the risk-neutral probability: the one-step
risk-neutral expectation of the up/down factors is the compounding factor. -/
lemma q_prob_mul_add {sigma T r : ℝ} {N : ℕ} (hsig : 0 < sigma) (hT : 0 < T)
    (hN : 1 ≤ N) :
    q_prob sigma T r N * u_factor sigma T N
      + (1 - q_prob sigma T r N) * d_factor sigma T N = R_factor r T N := by
  have hud : u_factor sigma T N - d_factor sigma T N ≠ 0 :=
    ne_of_gt (sub_pos.mpr (d_factor_lt_u_factor hsig hT hN))
  have h := div_mul_cancel₀ (R_factor r T N - d_factor sigma T N) hud
  have hqdef : q_prob sigma T r N
      = (R_factor r T N - d_factor sigma T N)
        / (u_factor sigma T N - d_factor sigma T N) := rfl
  rw [hqdef]
  linear_combination h

/-! ### Concrete factor values used by the witnesses (T = 1, N = 1) -/

lemma u_factor_unit : u_factor 1 1 1 = Real.exp 1 := by
  rw [u_factor]
  norm_num

lemma d_factor_unit : d_factor 1 1 1 = Real.exp (-1) := by
  rw [d_factor]
  norm_num

lemma R_factor_unit : R_factor 0 1 1 = 1 := by
  rw [R_factor]
  norm_num

lemma exp_neg_one_lt_one : Real.exp (-1) < 1 := by
  rw [← Real.exp_zero]
  exact Real.exp_lt_exp.mpr (by norm_num)

lemma one_lt_exp_one : (1:ℝ) < Real.exp 1 := by
  rw [← Real.exp_zero]
  exact Real.exp_lt_exp.mpr (by norm_num)

lemma q_prob_unit_pos : 0 < q_prob 1 1 0 1 := by
  have h1 := exp_neg_one_lt_one
  have h2 := one_lt_exp_one
  have hqdef : q_prob 1 1 0 1
      = (R_factor 0 1 1 - d_factor 1 1 1) / (u_factor 1 1 1 - d_factor 1 1 1) := rfl
  rw [hqdef, u_factor_unit, d_factor_unit, R_factor_unit]
  exact div_pos (by linarith) (by linarith)

lemma q_prob_unit_lt_one : q_prob 1 1 0 1 < 1 := by
  have h1 := exp_neg_one_lt_one
  have h2 := one_lt_exp_one
  have hqdef : q_prob 1 1 0 1
      = (R_factor 0 1 1 - d_factor 1 1 1) / (u_factor 1 1 1 - d_factor 1 1 1) := rfl
  rw [hqdef, u_factor_unit, d_factor_unit, R_factor_unit]
  exact (div_lt_one (by linarith)).mpr (by linarith)

/-! ### The claims -/

/-- C2: for valid parameters and either option kind, every interior node of
the option grid equals the discounted risk-neutral expectation of its two
successors, `V(i,j) = (q * V(i+1,j) + (1-q) * V(i+1,j+1)) / R`, the node
value is this continuation value unconditionally (European exercise), and
the pricer returns `V(0,0)`. -/
theorem C2_european_backward_recurrence (S K T r sigma u d q R : ℝ) (N : ℕ)
    (isCall : Bool) (hS : 0 < S) (hK : 0 < K) (hT : 0 < T) (hsig : 0 < sigma)
    (hN : 1 ≤ N) (hu : u = u_factor sigma T N) (hd : d = d_factor sigma T N)
    (hq : q = q_prob sigma T r N) (hR : R = R_factor r T N) :
    (∀ i j, i < N → j ≤ i →
      option_values S K u d q R N isCall i j
        = (q * option_values S K u d q R N isCall (i + 1) j
            + (1 - q) * option_values S K u d q R N isCall (i + 1) (j + 1)) / R) ∧
    binomial_option_pricer S K T r sigma N (if isCall then "call" else "put")
      = .ok (option_values S K u d q R N isCall 0 0) := by
  constructor
  · intro i j hi hj
    rw [option_values_eq S K u d q R N isCall i j hj hi.le,
      option_values_eq S K u d q R N isCall (i + 1) j (by omega) (by omega),
      option_values_eq S K u d q R N isCall (i + 1) (j + 1) (by omega) (by omega)]
    rw [show N - i = (N - (i + 1)) + 1 from by omega]
    rfl
  · subst hu hd hq hR
    cases isCall <;>
      simp [binomial_option_pricer, show N ≠ 0 from by omega]

/-- Witness for C2 at `S = K = T = 1`, `r = 0`, `sigma = 1`, `N = 1`,
kind = call: the interior-node recurrence instantiated at the root. -/
theorem C2_european_backward_recurrence_witness :
    (0:ℝ) < 1 ∧ 1 ≤ 1 ∧
    option_values 1 1 (u_factor 1 1 1) (d_factor 1 1 1) (q_prob 1 1 0 1)
        (R_factor 0 1 1) 1 true 0 0
      = (q_prob 1 1 0 1 * option_values 1 1 (u_factor 1 1 1) (d_factor 1 1 1)
          (q_prob 1 1 0 1) (R_factor 0 1 1) 1 true 1 0
        + (1 - q_prob 1 1 0 1) * option_values 1 1 (u_factor 1 1 1)
            (d_factor 1 1 1) (q_prob 1 1 0 1) (R_factor 0 1 1) 1 true 1 1)
          / R_factor 0 1 1 :=
  ⟨by norm_num, le_refl 1,
    (C2_european_backward_recurrence 1 1 1 0 1 (u_factor 1 1 1) (d_factor 1 1 1)
      (q_prob 1 1 0 1) (R_factor 0 1 1) 1 true (by norm_num) (by norm_num)
      (by norm_num) (by norm_num) (le_refl 1) rfl rfl rfl rfl).1 0 0
      Nat.zero_lt_one (le_refl 0)⟩

/-- C3: for every valid parameter set and every node `(i, j)` with
`j ≤ i ≤ N`, the incrementally built stock grid entry equals the closed
form `S * u^(i-j) * d^j` exactly (the embedding is real arithmetic, where
the spec's 1e-9 floating-point tolerance tightens to equality). -/
theorem C3_recombination (S K T sigma : ℝ) (N : ℕ) (hS : 0 < S) (hK : 0 < K)
    (hT : 0 < T) (hsig : 0 < sigma) (hN : 1 ≤ N) :
    ∀ i j, j ≤ i → i ≤ N →
      stock_prices S (u_factor sigma T N) (d_factor sigma T N) i j
        = S * u_factor sigma T N ^ (i - j) * d_factor sigma T N ^ j :=
  fun i j hj _ => stock_prices_closed S _ _ i j hj

/-- Witness for C3 at `S = 100`, `K = 105`, `T = 1`, `sigma = 1`, `N = 1`,
node `(1, 1)`. -/
theorem C3_recombination_witness :
    (0:ℝ) < 100 ∧ 1 ≤ 1 ∧
    stock_prices 100 (u_factor 1 1 1) (d_factor 1 1 1) 1 1
      = 100 * u_factor 1 1 1 ^ (1 - 1) * d_factor 1 1 1 ^ 1 :=
  ⟨by norm_num, le_refl 1,
    C3_recombination 100 105 1 1 1 (by norm_num) (by norm_num) (by norm_num)
      (by norm_num) (le_refl 1) 1 1 (le_refl 1) (le_refl 1)⟩

/-- C4: for every valid parameter set, the final layer of the option grid
is the elementwise payoff over `j = 0..N`: `max(0, S_N_j - K)` for a call
and `max(0, K - S_N_j)` for a put. -/
theorem C4_terminal_payoff (S K T r sigma u d q R : ℝ) (N : ℕ) (hS : 0 < S)
    (hK : 0 < K) (hT : 0 < T) (hsig : 0 < sigma) (hN : 1 ≤ N)
    (hu : u = u_factor sigma T N) (hd : d = d_factor sigma T N)
    (hq : q = q_prob sigma T r N) (hR : R = R_factor r T N) :
    ∀ j, j ≤ N →
      option_values S K u d q R N true N j
          = max 0 (stock_prices S u d N j - K) ∧
      option_values S K u d q R N false N j
          = max 0 (K - stock_prices S u d N j) := by
  intro j hj
  constructor <;>
  · rw [option_values_eq S K u d q R N _ N j hj (le_refl N), Nat.sub_self]
    rfl

/-- Witness for C4 at `S = 100`, `K = 105`, `T = 1`, `r = 0`, `sigma = 1`,
`N = 1`, terminal node `j = 1`. -/
theorem C4_terminal_payoff_witness :
    (0:ℝ) < 100 ∧ 1 ≤ 1 ∧
    (option_values 100 105 (u_factor 1 1 1) (d_factor 1 1 1) (q_prob 1 1 0 1)
        (R_factor 0 1 1) 1 true 1 1
      = max 0 (stock_prices 100 (u_factor 1 1 1) (d_factor 1 1 1) 1 1 - 105) ∧
    option_values 100 105 (u_factor 1 1 1) (d_factor 1 1 1) (q_prob 1 1 0 1)
        (R_factor 0 1 1) 1 false 1 1
      = max 0 (105 - stock_prices 100 (u_factor 1 1 1) (d_factor 1 1 1) 1 1)) :=
  ⟨by norm_num, le_refl 1,
    C4_terminal_payoff 100 105 1 0 1 (u_factor 1 1 1) (d_factor 1 1 1)
      (q_prob 1 1 0 1) (R_factor 0 1 1) 1 (by norm_num) (by norm_num)
      (by norm_num) (by norm_num) (le_refl 1) rfl rfl rfl rfl 1 (le_refl 1)⟩

/-- C5: put-call parity at the root. For any shared valid parameter set the
lattice call price minus the lattice put price is exactly
`S - K * R^(-N)` in real arithmetic. -/
theorem C5_put_call_parity (S K T r sigma R : ℝ) (N : ℕ) (c p : ℝ)
    (hS : 0 < S) (hK : 0 < K) (hT : 0 < T) (hsig : 0 < sigma) (hN : 1 ≤ N)
    (hR : R = R_factor r T N)
    (hc : binomial_option_pricer S K T r sigma N "call" = .ok c)
    (hp : binomial_option_pricer S K T r sigma N "put" = .ok p) :
    c - p = S - K / R ^ N := by
  subst hR
  have hNne : N ≠ 0 := by omega
  unfold binomial_option_pricer at hc hp
  rw [if_neg hNne, if_pos rfl] at hc
  rw [if_neg hNne, if_neg (by decide : ¬("put" = "call")), if_pos rfl] at hp
  have hc' := Except.ok.inj hc
  have hp' := Except.ok.inj hp
  rw [← hc', ← hp',
    option_values_eq S K _ _ _ _ N true 0 0 (le_refl 0) (Nat.zero_le N),
    option_values_eq S K _ _ _ _ N false 0 0 (le_refl 0) (Nat.zero_le N),
    Nat.sub_zero, ← backward_sub]
  have hcong : ∀ m,
      payoff true K (stock_prices S (u_factor sigma T N) (d_factor sigma T N) N m)
        - payoff false K (stock_prices S (u_factor sigma T N) (d_factor sigma T N) N m)
      = stock_prices S (u_factor sigma T N) (d_factor sigma T N) N m - K :=
    fun m => callPayoff_sub_putPayoff K _
  rw [backward_congr hcong N 0,
    backward_forward S K _ _ _ _ N (R_factor_pos r T N).ne'
      (q_prob_mul_add hsig hT hN) N 0 (by omega)]
  simp

/-- Witness for C5 at `S = K = T = 1`, `r = 0`, `sigma = 1`, `N = 1`. -/
theorem C5_put_call_parity_witness :
    binomial_option_pricer 1 1 1 0 1 1 "call"
      = .ok (option_values 1 1 (u_factor 1 1 1) (d_factor 1 1 1) (q_prob 1 1 0 1)
          (R_factor 0 1 1) 1 true 0 0) ∧
    option_values 1 1 (u_factor 1 1 1) (d_factor 1 1 1) (q_prob 1 1 0 1)
        (R_factor 0 1 1) 1 true 0 0
      - option_values 1 1 (u_factor 1 1 1) (d_factor 1 1 1) (q_prob 1 1 0 1)
          (R_factor 0 1 1) 1 false 0 0
      = 1 - 1 / R_factor 0 1 1 ^ 1 := by
  have hcall : binomial_option_pricer 1 1 1 0 1 1 "call"
      = .ok (option_values 1 1 (u_factor 1 1 1) (d_factor 1 1 1) (q_prob 1 1 0 1)
          (R_factor 0 1 1) 1 true 0 0) := by
    simp [binomial_option_pricer]
  have hput : binomial_option_pricer 1 1 1 0 1 1 "put"
      = .ok (option_values 1 1 (u_factor 1 1 1) (d_factor 1 1 1) (q_prob 1 1 0 1)
          (R_factor 0 1 1) 1 false 0 0) := by
    simp [binomial_option_pricer]
  exact ⟨hcall,
    C5_put_call_parity 1 1 1 0 1 (R_factor 0 1 1) 1 _ _ (by norm_num) (by norm_num)
      (by norm_num) (by norm_num) (le_refl 1) rfl hcall hput⟩

/-- C9: with the American node rule `max(C, intrinsic)` (modelled from the
spec; the source implements only the European rule), the American-exercise
price is never below the European price, for either option kind, whenever
the no-arbitrage invariant `d < R < u` of the spec holds. -/
theorem C9_american_ge_european (S K T r sigma u d q R : ℝ) (N : ℕ)
    (isCall : Bool) (hu : u = u_factor sigma T N) (hd : d = d_factor sigma T N)
    (hq : q = q_prob sigma T r N) (hR : R = R_factor r T N)
    (hdR : d < R) (hRu : R < u) :
    option_values S K u d q R N isCall 0 0 ≤ american_root S K u d q R N isCall := by
  have hR0 : 0 < R := hR ▸ R_factor_pos r T N
  have hud : 0 < u - d := by linarith
  have hqdef : q = (R - d) / (u - d) := by
    subst hu hd hq hR
    rfl
  have hq0 : 0 ≤ q := by
    rw [hqdef]
    exact div_nonneg (by linarith) hud.le
  have hq1 : q ≤ 1 := by
    rw [hqdef]
    exact (div_le_one hud).mpr (by linarith)
  rw [option_values_eq S K u d q R N isCall 0 0 (le_refl 0) (Nat.zero_le N),
    Nat.sub_zero]
  exact backward_le_american hq0 hq1 hR0 N 0

/-- Witness for C9 at `S = K = T = 1`, `r = 0`, `sigma = 1`, `N = 1`,
kind = call, where `d = e^(-1) < R = 1 < u = e`. -/
theorem C9_american_ge_european_witness :
    d_factor 1 1 1 < R_factor 0 1 1 ∧ R_factor 0 1 1 < u_factor 1 1 1 ∧
    option_values 1 1 (u_factor 1 1 1) (d_factor 1 1 1) (q_prob 1 1 0 1)
        (R_factor 0 1 1) 1 true 0 0
      ≤ american_root 1 1 (u_factor 1 1 1) (d_factor 1 1 1) (q_prob 1 1 0 1)
          (R_factor 0 1 1) 1 true := by
  have hdR : d_factor 1 1 1 < R_factor 0 1 1 := by
    rw [d_factor_unit, R_factor_unit]
    exact exp_neg_one_lt_one
  have hRu : R_factor 0 1 1 < u_factor 1 1 1 := by
    rw [u_factor_unit, R_factor_unit]
    exact one_lt_exp_one
  exact ⟨hdR, hRu,
    C9_american_ge_european 1 1 1 0 1 (u_factor 1 1 1) (d_factor 1 1 1)
      (q_prob 1 1 0 1) (R_factor 0 1 1) 1 true rfl rfl rfl rfl hdR hRu⟩

/-- C10: whenever the risk-neutral probability computed by the code lies in
`[0, 1]` (the compounding factor `R = exp(r*T/N)` is always positive),
every grid entry `(i, j)` with `j ≤ i ≤ N` of the option-value grid is
nonnegative, and the returned price `V(0,0)` is nonnegative. -/
theorem C10_nonnegative_grid (S K T r sigma u d q R : ℝ) (N : ℕ) (isCall : Bool)
    (hS : 0 < S) (hK : 0 < K) (hT : 0 < T) (hsig : 0 ≤ sigma) (hN : 1 ≤ N)
    (hu : u = u_factor sigma T N) (hd : d = d_factor sigma T N)
    (hq : q = q_prob sigma T r N) (hR : R = R_factor r T N)
    (hq0 : 0 ≤ q) (hq1 : q ≤ 1) :
    (∀ i j, j ≤ i → i ≤ N → 0 ≤ option_values S K u d q R N isCall i j) ∧
    ∀ v, binomial_option_pricer S K T r sigma N (if isCall then "call" else "put")
      = .ok v → 0 ≤ v := by
  have hR0 : 0 < R := hR ▸ R_factor_pos r T N
  have hterm : ∀ m, 0 ≤ payoff isCall K (stock_prices S u d N m) := by
    intro m
    cases isCall <;> simp [payoff, callPayoff, putPayoff]
  have hgrid : ∀ i j, j ≤ i → i ≤ N → 0 ≤ option_values S K u d q R N isCall i j := by
    intro i j hj hi
    rw [option_values_eq S K u d q R N isCall i j hj hi]
    exact backward_nonneg hq0 hq1 hR0 hterm _ _
  refine ⟨hgrid, ?_⟩
  intro v hv
  subst hu hd hq hR
  cases isCall <;>
    simp [binomial_option_pricer, show N ≠ 0 from by omega] at hv <;>
    exact hv ▸ hgrid 0 0 (le_refl 0) (Nat.zero_le N)

/-- Witness for C10 at `S = K = T = 1`, `r = 0`, `sigma = 1`, `N = 1`,
kind = call, where `q = (1 - e^(-1)) / (e - e^(-1)) ∈ [0, 1]`. -/
theorem C10_nonnegative_grid_witness :
    0 ≤ q_prob 1 1 0 1 ∧ q_prob 1 1 0 1 ≤ 1 ∧
    ((∀ i j, j ≤ i → i ≤ 1 →
      0 ≤ option_values 1 1 (u_factor 1 1 1) (d_factor 1 1 1) (q_prob 1 1 0 1)
            (R_factor 0 1 1) 1 true i j) ∧
    ∀ v, binomial_option_pricer 1 1 1 0 1 1 (if true then "call" else "put")
      = .ok v → 0 ≤ v) :=
  ⟨q_prob_unit_pos.le, q_prob_unit_lt_one.le,
    C10_nonnegative_grid 1 1 1 0 1 (u_factor 1 1 1) (d_factor 1 1 1)
      (q_prob 1 1 0 1) (R_factor 0 1 1) 1 true (by norm_num) (by norm_num)
      (by norm_num) (by norm_num) (le_refl 1) rfl rfl rfl rfl
      q_prob_unit_pos.le q_prob_unit_lt_one.le⟩

/-- C1 counterexample: at `S = 0` (with `K = 105`, `T = 1`, `r = 0`,
`sigma = 1`, `N = 1` otherwise valid) the pricer raises no validation
error at all — it returns the numeric result `0`. -/
theorem C1_counterexample :
    binomial_option_pricer 0 105 1 0 1 1 "call" = Except.ok 0 := by
  have hterm : ∀ m,
      payoff true 105 (stock_prices 0 (u_factor 1 1 1) (d_factor 1 1 1) 1 m) = 0 := by
    intro m
    rw [stock_prices_S_zero]
    simp [payoff, callPayoff]
  have hov : option_values 0 105 (u_factor 1 1 1) (d_factor 1 1 1) (q_prob 1 1 0 1)
      (R_factor 0 1 1) 1 true 0 0 = 0 := by
    rw [option_values_eq 0 105 _ _ _ _ 1 true 0 0 (le_refl 0) (Nat.zero_le 1)]
    exact backward_of_zero_term _ _ _ hterm 1 0
  simp [binomial_option_pricer, hov]

/-- C1 amended: the pricer performs no fail-fast parameter validation.
For every parameter combination with `N ≥ 1` — including `S ≤ 0`, `K ≤ 0`,
`T ≤ 0`, `sigma < 0` and no-arbitrage violations — a call with kind
`call` or `put` raises nothing and returns a value; the only division
guard is Python itself raising `ZeroDivisionError` at `delta_t = T/N`
when `N = 0`, which is not a named validation error. -/
theorem C1_no_fail_fast_validation (S K T r sigma : ℝ) (N : ℕ) (hN : 1 ≤ N) :
    (binomial_option_pricer S K T r sigma N "call").isOk = true ∧
    (binomial_option_pricer S K T r sigma N "put").isOk = true ∧
    binomial_option_pricer S K T r sigma 0 "call"
      = Except.error PyError.zeroDivisionError := by
  refine ⟨?_, ?_, rfl⟩ <;>
    simp [binomial_option_pricer, show N ≠ 0 from by omega, Except.isOk, Except.toBool]

/-- Witness for C1 at the invalid parameters `S = -1`, `K = -1`, `T = -1`,
`r = 0`, `sigma = -1`: with `N = 1` both kinds still return a value. -/
theorem C1_no_fail_fast_validation_witness :
    1 ≤ 1 ∧
    ((binomial_option_pricer (-1) (-1) (-1) 0 (-1) 1 "call").isOk = true ∧
    (binomial_option_pricer (-1) (-1) (-1) 0 (-1) 1 "put").isOk = true ∧
    binomial_option_pricer (-1) (-1) (-1) 0 (-1) 0 "call"
      = Except.error PyError.zeroDivisionError) :=
  ⟨le_refl 1, C1_no_fail_fast_validation (-1) (-1) (-1) 0 (-1) 1 (le_refl 1)⟩

/-- C6 counterexample: with `N = 0` and the invalid kind `"straddle"`, the
call fails with `ZeroDivisionError` (from `delta_t = T/N`), not with the
invalid-option-kind `ValueError` — so an invalid kind does not fail with
the kind error for arbitrary other parameters. -/
theorem C6_counterexample :
    binomial_option_pricer 1 1 1 0 1 0 "straddle"
      = Except.error PyError.zeroDivisionError ∧
    PyError.zeroDivisionError
      ≠ PyError.valueError "Option type must be \x27call\x27 or \x27put\x27" :=
  ⟨rfl, by decide⟩

/-- C6 amended: for `N ≥ 1`, every kind outside `{call, put}` fails with
the `ValueError` naming the option type (the code's invalid-option-kind
error) and no numeric price is produced, while kinds `call` and `put`
never raise it; the check runs once, between grid construction and the
backward recursion, not inside the recursion.  For `N = 0` a
`ZeroDivisionError` preempts the kind check. -/
theorem C6_invalid_kind (S K T r sigma : ℝ) (N : ℕ) (kind : String)
    (hN : 1 ≤ N) (hc : kind ≠ "call") (hp : kind ≠ "put") :
    binomial_option_pricer S K T r sigma N kind
      = Except.error (PyError.valueError
          "Option type must be \x27call\x27 or \x27put\x27") ∧
    (binomial_option_pricer S K T r sigma N "call").isOk = true ∧
    (binomial_option_pricer S K T r sigma N "put").isOk = true := by
  refine ⟨?_, ?_, ?_⟩ <;>
    simp [binomial_option_pricer, show N ≠ 0 from by omega, hc, hp, Except.isOk, Except.toBool]

/-- Witness for C6 at kind `"straddle"`, `N = 1`. -/
theorem C6_invalid_kind_witness :
    "straddle" ≠ "call" ∧
    (binomial_option_pricer 1 1 1 0 1 1 "straddle"
      = Except.error (PyError.valueError
          "Option type must be \x27call\x27 or \x27put\x27") ∧
    (binomial_option_pricer 1 1 1 0 1 1 "call").isOk = true ∧
    (binomial_option_pricer 1 1 1 0 1 1 "put").isOk = true) :=
  ⟨by decide, C6_invalid_kind 1 1 1 0 1 1 "straddle" (le_refl 1)
    (by decide) (by decide)⟩

/-- C7 counterexample: at `sigma = 0` (with `T = 1`, `N = 1`) the factors
collapse to `u = d = 1`, so the denominator `u - d` of the risk-neutral
probability is exactly `0`: the code's `q = (R - d) / (u - d)` IS a
division by zero, contradicting the claim that `q` is computed without
one. -/
theorem C7_counterexample :
    u_factor 0 1 1 = 1 ∧ d_factor 0 1 1 = 1 ∧
    u_factor 0 1 1 - d_factor 0 1 1 = 0 := by
  have hu : u_factor 0 1 1 = 1 := by
    rw [u_factor]
    norm_num
  have hd : d_factor 0 1 1 = 1 := by
    rw [d_factor]
    norm_num
  exact ⟨hu, hd, by rw [hu, hd]; ring⟩

/-- C7 amended: `sigma = 0` does collapse the tree — `u = d = 1` and the
whole stock grid is the deterministic single path constantly `S` — but
the denominator `u - d` of `q` is then exactly zero, so the code divides
by zero when computing `q` (in IEEE arithmetic `q` becomes `inf`/`nan`)
instead of returning the deterministic single-path price. -/
theorem C7_degenerate_sigma (S T r sigma : ℝ) (N : ℕ) (hsig : sigma = 0) :
    u_factor sigma T N = 1 ∧ d_factor sigma T N = 1 ∧
    u_factor sigma T N - d_factor sigma T N = 0 ∧
    ∀ i j, j ≤ i →
      stock_prices S (u_factor sigma T N) (d_factor sigma T N) i j = S := by
  subst hsig
  have hu : u_factor 0 T N = 1 := by
    rw [u_factor]
    norm_num
  have hd : d_factor 0 T N = 1 := by
    rw [d_factor]
    norm_num
  refine ⟨hu, hd, by rw [hu, hd]; ring, ?_⟩
  intro i j hj
  rw [stock_prices_closed S _ _ i j hj, hu, hd]
  simp

/-- Witness for C7 at `sigma = 0`, `S = 5`, `T = 1`, `r = 0`, `N = 2`. -/
theorem C7_degenerate_sigma_witness :
    (0:ℝ) = 0 ∧
    (u_factor 0 1 2 = 1 ∧ d_factor 0 1 2 = 1 ∧
    u_factor 0 1 2 - d_factor 0 1 2 = 0 ∧
    ∀ i j, j ≤ i → stock_prices 5 (u_factor 0 1 2) (d_factor 0 1 2) i j = 5) :=
  ⟨rfl, C7_degenerate_sigma 5 1 0 0 2 rfl⟩

/-- With `S = T = sigma = 1`, `r = 0`, `N = 1`, a call struck at or above
`u = e` is worthless at both terminal nodes, hence at the root. -/
lemma unit_call_root_worthless {K : ℝ} (hK : Real.exp 1 ≤ K) :
    option_values 1 K (u_factor 1 1 1) (d_factor 1 1 1) (q_prob 1 1 0 1)
      (R_factor 0 1 1) 1 true 0 0 = 0 := by
  have hd1 : Real.exp (-1) ≤ K :=
    le_trans (le_of_lt (lt_trans exp_neg_one_lt_one one_lt_exp_one)) hK
  have hK0 : 0 ≤ K := le_trans (Real.exp_pos 1).le hK
  have hterm : ∀ m,
      payoff true K (stock_prices 1 (u_factor 1 1 1) (d_factor 1 1 1) 1 m) = 0 := by
    intro m
    match m with
    | 0 =>
      rw [stock_prices_closed 1 _ _ 1 0 (Nat.zero_le 1)]
      show max 0 (1 * u_factor 1 1 1 ^ (1 - 0) * d_factor 1 1 1 ^ 0 - K) = 0
      rw [u_factor_unit]
      simp only [Nat.sub_zero, pow_one, pow_zero, one_mul, mul_one]
      exact max_eq_left (by linarith)
    | 1 =>
      rw [stock_prices_closed 1 _ _ 1 1 (le_refl 1)]
      show max 0 (1 * u_factor 1 1 1 ^ (1 - 1) * d_factor 1 1 1 ^ 1 - K) = 0
      rw [d_factor_unit]
      simp only [Nat.sub_self, pow_zero, pow_one, one_mul]
      exact max_eq_left (by linarith)
    | m + 2 =>
      have hz : stock_prices 1 (u_factor 1 1 1) (d_factor 1 1 1) 1 (m + 2)
          = if m + 2 ≤ 0 + 1 then
              stock_prices 1 (u_factor 1 1 1) (d_factor 1 1 1) 0 (m + 1)
                * d_factor 1 1 1
            else 0 := rfl
      rw [hz, if_neg (by omega)]
      show max 0 (0 - K) = 0
      exact max_eq_left (by linarith)
  rw [option_values_eq 1 K _ _ _ _ 1 true 0 0 (le_refl 0) (Nat.zero_le 1)]
  exact backward_of_zero_term _ _ _ hterm 1 0

/-- C8 counterexample: with `S = 1`, `T = 1`, `r = 0`, `sigma = 1`, `N = 1`
and strikes `K1 = 3 < K2 = 4` (valid parameters), both European call
prices are `0` — increasing the strike does NOT strictly decrease the
call price. -/
theorem C8_counterexample :
    binomial_option_pricer 1 3 1 0 1 1 "call" = Except.ok 0 ∧
    binomial_option_pricer 1 4 1 0 1 1 "call" = Except.ok 0 := by
  have h3 : Real.exp 1 ≤ 3 := le_trans Real.exp_one_lt_d9.le (by norm_num)
  have h4 : Real.exp 1 ≤ 4 := le_trans Real.exp_one_lt_d9.le (by norm_num)
  constructor <;>
    simp [binomial_option_pricer, unit_call_root_worthless h3,
      unit_call_root_worthless h4]

/-- C8 amended: under the no-arbitrage condition `0 < q < 1` and for
strikes in the range where some terminal node is in the money
(`K1 < S * u^N` for the call, `S * d^N < K2` for the put), increasing the
strike strictly decreases the European call price and strictly increases
the European put price; outside that range the monotonicity is only weak
(both prices can be zero, as the counterexample shows). -/
theorem C8_strike_monotonicity (S K1 K2 T r sigma u d q R : ℝ) (N : ℕ)
    (hS : 0 < S) (hK1 : 0 < K1) (hK12 : K1 < K2) (hT : 0 < T) (hsig : 0 < sigma)
    (hN : 1 ≤ N) (hu : u = u_factor sigma T N) (hd : d = d_factor sigma T N)
    (hq : q = q_prob sigma T r N) (hR : R = R_factor r T N)
    (hq0 : 0 < q) (hq1 : q < 1)
    (hcall : K1 < S * u ^ N) (hput : S * d ^ N < K2) :
    option_values S K2 u d q R N true 0 0
        < option_values S K1 u d q R N true 0 0 ∧
    option_values S K1 u d q R N false 0 0
        < option_values S K2 u d q R N false 0 0 := by
  have hR0 : 0 < R := hR ▸ R_factor_pos r T N
  have htop : stock_prices S u d N 0 = S * u ^ N := by
    rw [stock_prices_closed S u d N 0 (Nat.zero_le N)]
    simp
  have hbot : stock_prices S u d N N = S * d ^ N := by
    rw [stock_prices_closed S u d N N (le_refl N)]
    simp
  constructor
  · rw [option_values_eq S K2 u d q R N true 0 0 (le_refl 0) (Nat.zero_le N),
      option_values_eq S K1 u d q R N true 0 0 (le_refl 0) (Nat.zero_le N),
      Nat.sub_zero]
    apply backward_strict_left hq0 hq1.le hR0
    · intro m
      show max 0 (stock_prices S u d N m - K2) ≤ max 0 (stock_prices S u d N m - K1)
      exact max_le_max (le_refl 0) (by linarith)
    · show max 0 (stock_prices S u d N 0 - K2) < max 0 (stock_prices S u d N 0 - K1)
      rw [htop, max_eq_right (by linarith : (0:ℝ) ≤ S * u ^ N - K1)]
      exact max_lt (by linarith) (by linarith)
  · rw [option_values_eq S K1 u d q R N false 0 0 (le_refl 0) (Nat.zero_le N),
      option_values_eq S K2 u d q R N false 0 0 (le_refl 0) (Nat.zero_le N),
      Nat.sub_zero]
    have hfg : ∀ m,
        payoff false K1 (stock_prices S u d N m)
          ≤ payoff false K2 (stock_prices S u d N m) := by
      intro m
      show max 0 (K1 - stock_prices S u d N m) ≤ max 0 (K2 - stock_prices S u d N m)
      exact max_le_max (le_refl 0) (by linarith)
    have hstrict :
        payoff false K1 (stock_prices S u d N N)
          < payoff false K2 (stock_prices S u d N N) := by
      show max 0 (K1 - stock_prices S u d N N) < max 0 (K2 - stock_prices S u d N N)
      rw [hbot, max_eq_right (by linarith : (0:ℝ) ≤ K2 - S * d ^ N)]
      exact max_lt (by linarith) (by linarith)
    exact backward_strict_right hq0.le hq1 hR0 hfg hstrict N 0 (Nat.zero_add N)

/-- Witness for C8 at `S = 2`, `K1 = 1 < K2 = 3`, `T = 1`, `r = 0`,
`sigma = 1`, `N = 1`: both strikes are in range
(`1 < 2e` and `2e^(-1) < 3`), so both monotonicities are strict. -/
theorem C8_strike_monotonicity_witness :
    0 < q_prob 1 1 0 1 ∧ q_prob 1 1 0 1 < 1 ∧
    (option_values 2 3 (u_factor 1 1 1) (d_factor 1 1 1) (q_prob 1 1 0 1)
        (R_factor 0 1 1) 1 true 0 0
      < option_values 2 1 (u_factor 1 1 1) (d_factor 1 1 1) (q_prob 1 1 0 1)
          (R_factor 0 1 1) 1 true 0 0 ∧
    option_values 2 1 (u_factor 1 1 1) (d_factor 1 1 1) (q_prob 1 1 0 1)
        (R_factor 0 1 1) 1 false 0 0
      < option_values 2 3 (u_factor 1 1 1) (d_factor 1 1 1) (q_prob 1 1 0 1)
          (R_factor 0 1 1) 1 false 0 0) :=
  ⟨q_prob_unit_pos, q_prob_unit_lt_one,
    C8_strike_monotonicity 2 1 3 1 0 1 (u_factor 1 1 1) (d_factor 1 1 1)
      (q_prob 1 1 0 1) (R_factor 0 1 1) 1 (by norm_num) (by norm_num)
      (by norm_num) (by norm_num) (by norm_num) (le_refl 1) rfl rfl rfl rfl
      q_prob_unit_pos q_prob_unit_lt_one
      (by rw [u_factor_unit, pow_one]; nlinarith [one_lt_exp_one])
      (by rw [d_factor_unit, pow_one]; nlinarith [exp_neg_one_lt_one])⟩

end

end MotleyPricer
